import Mathlib

/-!
Verification development for the stock-data processing pipeline
(`src/processors/data_processor.py`, class `StockDataProcessor`).

Modelling conventions (shallow embedding):

* Every pandas float64 cell is modelled by `PValue`: an exact rational
  number, a signed infinity, or `nan`.  `nan` plays two roles, exactly as
  in pandas: IEEE not-a-number results and the missing-value marker.
  Arithmetic on `PValue` follows the IEEE-754 rules that float64 follows
  (nan propagates; x/0 is a signed infinity for x different from 0 and nan
  for x = 0; comparisons against nan are false), with exact rationals in
  place of binary floats.
* A dataframe produced by the pipeline is `DF`: a list of `Row` plus a
  flag recording whether the seven feature columns created by
  `create_ml_features` are present (before that call the feature fields
  of every row are `nan` and the flag is `false`; the flag models the
  Python-level column-presence test `c in df.columns`).
* Dates are integers (the code only compares and sorts them; calendar
  structure is irrelevant).  Raw records are modelled after parsing:
  `pd.to_numeric(col, errors ...)` turns an unparseable entry into NaN, so
  an unparseable input field is simply a `nan` input here and `to_numeric`
  acts as the identity on already-numeric data.
* `df.sort_values(date)` promises only a date-sorted permutation: the
  default pandas kind of sort (quicksort) is NOT stable, so the relative
  order of equal dates in its output is unspecified.  The functional
  model `sortByDate` fixes the stable choice (`List.insertionSort`) so
  the rest of the development stays executable; any statement whose
  truth could depend on the tie order is settled against the contract
  (`IsSortValuesOutcome`, `PipelineOutcome`: an arbitrary date-sorted
  permutation) rather than against this particular choice.
* The standard deviation (`rolling.std`, `Series.std`) needs a square
  root, which has no exact rational value; `Rat.sqrt` is used as a fixed
  computable stand-in.  No claim below depends on the numeric value of a
  square root, only on its nan/infinity behaviour and determinism.
* Python-level mutation is modelled by explicit call-summaries
  (`process_daily_data_call`, `create_ml_features_call`) returning the
  post-call value of the argument together with the returned value.
-/

/-- IEEE-754-style scalar as held by a pandas float64 column: a rational,
a signed infinity, or NaN (also the missing-value marker). -/
inductive PValue where
  | nan : PValue
  | inf : PValue
  | ninf : PValue
  | num : ℚ → PValue
deriving DecidableEq, Repr, Inhabited

namespace PValue

/-- IEEE negation. -/
def neg : PValue → PValue
  | nan => nan
  | inf => ninf
  | ninf => inf
  | num q => num (-q)

/-- IEEE addition: nan propagates, opposite infinities give nan. -/
def add : PValue → PValue → PValue
  | nan, _ => nan
  | _, nan => nan
  | inf, ninf => nan
  | ninf, inf => nan
  | inf, _ => inf
  | _, inf => inf
  | ninf, _ => ninf
  | _, ninf => ninf
  | num a, num b => num (a + b)

/-- IEEE subtraction, `a - b = a + (-b)`. -/
def sub (a b : PValue) : PValue := add a (neg b)

/-- IEEE multiplication: nan propagates, infinity times zero is nan. -/
def mul : PValue → PValue → PValue
  | nan, _ => nan
  | _, nan => nan
  | inf, inf => inf
  | inf, ninf => ninf
  | ninf, inf => ninf
  | ninf, ninf => inf
  | inf, num b => if b = 0 then nan else if 0 < b then inf else ninf
  | num a, inf => if a = 0 then nan else if 0 < a then inf else ninf
  | ninf, num b => if b = 0 then nan else if 0 < b then ninf else inf
  | num a, ninf => if a = 0 then nan else if 0 < a then ninf else inf
  | num a, num b => num (a * b)

/-- IEEE division: nan propagates, inf/inf is nan, finite/0 is a signed
infinity (0/0 is nan), finite/inf is 0.  The rationals have a single
zero, which behaves as IEEE +0 (the only zeros produced by the pipeline
are positive zeros). -/
def div : PValue → PValue → PValue
  | nan, _ => nan
  | _, nan => nan
  | inf, inf => nan
  | inf, ninf => nan
  | ninf, inf => nan
  | ninf, ninf => nan
  | inf, num b => if 0 ≤ b then inf else ninf
  | ninf, num b => if 0 ≤ b then ninf else inf
  | num _, inf => num 0
  | num _, ninf => num 0
  | num a, num b =>
      if b = 0 then (if a = 0 then nan else if 0 < a then inf else ninf)
      else num (a / b)

/-- IEEE strict less-than: any comparison with nan is false. -/
def lt : PValue → PValue → Bool
  | nan, _ => false
  | _, nan => false
  | ninf, ninf => false
  | ninf, _ => true
  | _, ninf => false
  | inf, _ => false
  | _, inf => true
  | num a, num b => decide (a < b)

/-- IEEE less-or-equal: any comparison with nan is false. -/
def le : PValue → PValue → Bool
  | nan, _ => false
  | _, nan => false
  | ninf, _ => true
  | _, ninf => false
  | _, inf => true
  | inf, _ => false
  | num a, num b => decide (a ≤ b)

/-- Whether the value is the missing marker. -/
def isNan : PValue → Bool
  | nan => true
  | _ => false

/-- Round-half-to-even on rationals, the tie rule used by `numpy.round`. -/
def roundHalfEven (q : ℚ) : ℤ :=
  let f : ℤ := ⌊q⌋
  let frac : ℚ := q - f
  if frac < 1/2 then f
  else if 1/2 < frac then f + 1
  else if f % 2 = 0 then f else f + 1

/-- Rounding to two decimal digits, as `Series.round(2)`: nan and the
infinities are left unchanged. -/
def round2 : PValue → PValue
  | nan => nan
  | inf => inf
  | ninf => ninf
  | num q => num ((roundHalfEven (q * 100) : ℚ) / 100)

/-- Sum of a list of values with IEEE addition (nan absorbs). -/
def pSum (l : List PValue) : PValue := l.foldr add (num 0)

/-- The trailing window of width `w` ending at position `i`: the slice of
positions `i+1-w` up to `i`.  For `i+1 < w` the slice is shorter than `w`. -/
def rollingWindow (w : ℕ) (vals : List PValue) (i : ℕ) : List PValue :=
  (vals.take (i+1)).drop (i + 1 - w)

/-- Value at position `i` of `Series.rolling(window = w).mean()`: NaN when
fewer than `w` non-NaN observations are available (the default
`min_periods` equals the window size), otherwise the mean of the window. -/
def rollingMeanAt (w : ℕ) (vals : List PValue) (i : ℕ) : PValue :=
  let win := rollingWindow w vals i
  if (win.filter (fun v => !v.isNan)).length < w then nan
  else div (pSum win) (num w)

/-- Fixed computable stand-in for the real square root (see header). -/
def pSqrt : PValue → PValue
  | nan => nan
  | inf => inf
  | ninf => nan
  | num q => if q < 0 then nan else num (Rat.sqrt q)

/-- Value at position `i` of `Series.rolling(window = w).std()`: the
sample standard deviation (divisor `w - 1`) of the trailing window, NaN
when the window is not full of non-NaN observations. -/
def rollingStdAt (w : ℕ) (vals : List PValue) (i : ℕ) : PValue :=
  let win := rollingWindow w vals i
  if (win.filter (fun v => !v.isNan)).length < w then nan
  else
    let m := div (pSum win) (num w)
    let sq := win.map (fun v => mul (sub v m) (sub v m))
    pSqrt (div (pSum sq) (num ((w : ℚ) - 1)))

/-- `Series.mean()` with the default skipna: mean of the non-NaN entries,
NaN when there are none. -/
def meanSkipna (l : List PValue) : PValue :=
  let nn := l.filter (fun v => !v.isNan)
  if nn.length = 0 then nan else div (pSum nn) (num nn.length)

/-- `Series.max()` with the default skipna. -/
def maxSkipna (l : List PValue) : PValue :=
  match l.filter (fun v => !v.isNan) with
  | [] => nan
  | x :: xs => xs.foldl (fun a b => if le a b then b else a) x

/-- `Series.min()` with the default skipna. -/
def minSkipna (l : List PValue) : PValue :=
  match l.filter (fun v => !v.isNan) with
  | [] => nan
  | x :: xs => xs.foldl (fun a b => if le b a then b else a) x

/-- `Series.std()` with the default skipna and `ddof = 1`: sample standard
deviation of the non-NaN entries, NaN when fewer than two remain. -/
def stdSkipna (l : List PValue) : PValue :=
  let nn := l.filter (fun v => !v.isNan)
  if nn.length < 2 then nan
  else
    let m := div (pSum nn) (num nn.length)
    let sq := nn.map (fun v => mul (sub v m) (sub v m))
    pSqrt (div (pSum sq) (num ((nn.length : ℚ) - 1)))

end PValue

/-- One raw per-day record handed to `process_daily_data` (a parsed
element of `data_list`): a date and the five numeric fields. -/
structure RawRow where
  date : ℤ
  open_ : PValue
  close : PValue
  high : PValue
  low : PValue
  volume : PValue
deriving DecidableEq, Repr, Inhabited

/-- One row of the processed dataframe: the raw fields, the four derived
per-day fields added by `process_daily_data`, and the seven feature
fields added by `create_ml_features` (all `nan` until that call; the
`DF.hasFeatures` flag records whether the feature columns exist). -/
structure Row where
  date : ℤ
  open_ : PValue
  close : PValue
  high : PValue
  low : PValue
  volume : PValue
  price_change : PValue
  price_change_pct : PValue
  daily_range : PValue
  daily_range_pct : PValue
  ma_5 : PValue
  ma_10 : PValue
  ma_20 : PValue
  rsi : PValue
  volatility : PValue
  volume_ma : PValue
  volume_ratio : PValue
deriving DecidableEq, Repr, Inhabited

/-- A dataframe: ordered rows plus the presence flag of the feature
columns (see `Row`). -/
structure DF where
  rows : List Row
  hasFeatures : Bool
deriving DecidableEq, Repr, Inhabited

/-- Projection of a processed row back to its raw fields. -/
def Row.toRaw (r : Row) : RawRow :=
  { date := r.date, open_ := r.open_, close := r.close, high := r.high,
    low := r.low, volume := r.volume }

namespace StockDataProcessor

/-- Model of `pd.to_numeric(col, errors = coerce)` on an already-parsed
value: numbers and NaN pass through unchanged (an unparseable string is
modelled as a `nan` input, see the file header). -/
def to_numeric (v : PValue) : PValue := v

/-- The per-row work of `process_daily_data`: numeric coercion and the
four derived columns (price_change, price_change_pct, daily_range,
daily_range_pct), the percentage columns rounded to two digits.  Feature
fields are initialised to `nan` (their columns do not exist yet). -/
def addDerived (r : RawRow) : Row :=
  let o := to_numeric r.open_
  let c := to_numeric r.close
  let h := to_numeric r.high
  let l := to_numeric r.low
  let v := to_numeric r.volume
  let pc := PValue.sub c o
  let pcp := PValue.round2 (PValue.mul (PValue.div pc o) (PValue.num 100))
  let dr := PValue.sub h l
  let drp := PValue.round2 (PValue.mul (PValue.div dr o) (PValue.num 100))
  { date := r.date, open_ := o, close := c, high := h, low := l, volume := v,
    price_change := pc, price_change_pct := pcp,
    daily_range := dr, daily_range_pct := drp,
    ma_5 := PValue.nan, ma_10 := PValue.nan, ma_20 := PValue.nan,
    rsi := PValue.nan, volatility := PValue.nan,
    volume_ma := PValue.nan, volume_ratio := PValue.nan }

/-- Date ordering on rows, the key of `sort_values(date)`. -/
def dateLe (a b : Row) : Prop := a.date ≤ b.date

instance : DecidableRel dateLe := fun a b => inferInstanceAs (Decidable (a.date ≤ b.date))

instance : IsTotal Row dateLe := ⟨fun a b => Int.le_total a.date b.date⟩

instance : IsTrans Row dateLe := ⟨fun _ _ _ h1 h2 => le_trans h1 h2⟩

/-- Functional model of `df.sort_values(date)`.  The real sort is the
unstable pandas default whose tie order is unspecified; this model fixes
the stable choice, and statements sensitive to the tie order are
settled against the sort contract `IsSortValuesOutcome` instead (see
the file header). -/
def sortByDate (l : List Row) : List Row := l.insertionSort dateLe

/-- `StockDataProcessor.process_daily_data`: on an empty list, an empty
frame; otherwise coerce the columns, add the four derived columns, and
sort ascending by date.  The feature columns do not exist yet. -/
def process_daily_data (data_list : List RawRow) : DF :=
  if data_list.isEmpty then ⟨[], false⟩
  else ⟨sortByDate (data_list.map addDerived), false⟩

/-- The close column of a row list. -/
def closesOf (rows : List Row) : List PValue := rows.map (·.close)

/-- The volume column of a row list. -/
def volumesOf (rows : List Row) : List PValue := rows.map (·.volume)

/-- Value at position `i` of `df.close.diff()`: NaN at position 0,
otherwise the difference with the previous close. -/
def deltaAt (closes : List PValue) (i : ℕ) : PValue :=
  if i = 0 then PValue.nan
  else PValue.sub (closes.getD i PValue.nan) (closes.getD (i-1) PValue.nan)

/-- Value at position `i` of `delta.where(delta > 0, 0)`: the delta where
it is positive, else 0.  A NaN delta compares false and becomes 0. -/
def gainAt (closes : List PValue) (i : ℕ) : PValue :=
  let d := deltaAt closes i
  if PValue.lt (PValue.num 0) d then d else PValue.num 0

/-- Value at position `i` of `-delta.where(delta < 0, 0)`: the delta
where it is negative, else 0, then negated.  A NaN delta becomes 0. -/
def lossAt (closes : List PValue) (i : ℕ) : PValue :=
  let d := deltaAt closes i
  PValue.neg (if PValue.lt d (PValue.num 0) then d else PValue.num 0)

/-- The gain column as a list. -/
def gainsOf (closes : List PValue) : List PValue :=
  (List.range closes.length).map (gainAt closes)

/-- The loss column as a list. -/
def lossesOf (closes : List PValue) : List PValue :=
  (List.range closes.length).map (lossAt closes)

/-- The trailing 14-row average gain at position `i`
(`gain.rolling(window = 14).mean()`). -/
def avgGainAt (closes : List PValue) (i : ℕ) : PValue :=
  PValue.rollingMeanAt 14 (gainsOf closes) i

/-- The trailing 14-row average loss at position `i`
(`loss.rolling(window = 14).mean()`). -/
def avgLossAt (closes : List PValue) (i : ℕ) : PValue :=
  PValue.rollingMeanAt 14 (lossesOf closes) i

/-- The RSI at position `i`: `rs = gain / loss` and
`rsi = 100 - 100 / (1 + rs)`, elementwise with IEEE arithmetic. -/
def rsiAt (closes : List PValue) (i : ℕ) : PValue :=
  let rs := PValue.div (avgGainAt closes i) (avgLossAt closes i)
  PValue.sub (PValue.num 100) (PValue.div (PValue.num 100) (PValue.add (PValue.num 1) rs))

/-- Row `i` after the column assignments of `create_ml_features`: the
original row with the seven feature columns filled in.  The volume_ma
column is assigned before volume_ratio, which divides by it. -/
def featRow (rows : List Row) (i : ℕ) : Row :=
  let closes := closesOf rows
  let volumes := volumesOf rows
  let r := rows.getD i default
  let vma := PValue.rollingMeanAt 5 volumes i
  { r with
    ma_5 := PValue.rollingMeanAt 5 closes i,
    ma_10 := PValue.rollingMeanAt 10 closes i,
    ma_20 := PValue.rollingMeanAt 20 closes i,
    rsi := rsiAt closes i,
    volatility := PValue.rollingStdAt 10 closes i,
    volume_ma := vma,
    volume_ratio := PValue.div r.volume vma }

/-- All rows after the column assignments of `create_ml_features`. -/
def fillFeatures (rows : List Row) : List Row :=
  (List.range rows.length).map (featRow rows)

/-- `StockDataProcessor.create_ml_features`: unchanged on an empty frame,
otherwise the frame with the seven feature columns added. -/
def create_ml_features (df : DF) : DF :=
  if df.rows.isEmpty then df
  else ⟨fillFeatures df.rows, true⟩

/-- Call summary for `process_daily_data`: the Python function builds a
fresh DataFrame from `data_list` and never writes to the argument list,
so the post-call value of the argument is the argument itself; the pair
is (argument after the call, returned frame). -/
def process_daily_data_call (data_list : List RawRow) : List RawRow × DF :=
  (data_list, process_daily_data data_list)

/-- Call summary for `create_ml_features`: the Python function assigns
columns through the argument reference (`df[c] = ...`) and returns that
same object, so after the call the argument holds exactly the returned
frame; the pair is (argument after the call, returned frame). -/
def create_ml_features_call (df : DF) : DF × DF :=
  let r := create_ml_features df
  (r, r)

/-- The statistics mapping built by `calculate_statistics` (the date
bounds are kept as dates rather than formatted strings). -/
structure Stats where
  total_records : ℕ
  date_start : ℤ
  date_end : ℤ
  current_price : PValue
  max_price : PValue
  min_price : PValue
  avg_price : PValue
  price_volatility : PValue
  avg_volume : PValue
  max_volume : PValue
  min_volume : PValue
  total_return : PValue
  best_day : PValue
  worst_day : PValue
  avg_daily_change : PValue
deriving DecidableEq, Repr

/-- `StockDataProcessor.calculate_statistics`: `none` models the empty
dict returned for an empty frame. -/
def calculate_statistics (df : DF) : Option Stats :=
  match df.rows with
  | [] => none
  | r0 :: rest =>
    let rows := r0 :: rest
    let closes := closesOf rows
    let firstOpen := r0.open_
    let lastClose := (rows.map (·.close)).getLastD PValue.nan
    some {
      total_records := rows.length,
      date_start := (rest.map (·.date)).foldl min r0.date,
      date_end := (rest.map (·.date)).foldl max r0.date,
      current_price := lastClose,
      max_price := PValue.maxSkipna (rows.map (·.high)),
      min_price := PValue.minSkipna (rows.map (·.low)),
      avg_price := PValue.meanSkipna closes,
      price_volatility := PValue.stdSkipna closes,
      avg_volume := PValue.meanSkipna (rows.map (·.volume)),
      max_volume := PValue.maxSkipna (rows.map (·.volume)),
      min_volume := PValue.minSkipna (rows.map (·.volume)),
      total_return :=
        if rows.length > 0 then
          PValue.mul (PValue.div (PValue.sub lastClose firstOpen) firstOpen) (PValue.num 100)
        else PValue.num 0,
      best_day := PValue.maxSkipna (rows.map (·.price_change_pct)),
      worst_day := PValue.minSkipna (rows.map (·.price_change_pct)),
      avg_daily_change := PValue.meanSkipna (rows.map (·.price_change_pct)) }

/-- The pattern labels returned by `detect_patterns`; `none` models an
absent key of the returned dict. -/
structure Patterns where
  trend : Option String
  volume_activity : Option String
  rsi_signal : Option String
deriving DecidableEq, Repr

/-- The last `n` entries of a column (`Series.tail(n)`). -/
def lastN (n : ℕ) (l : List PValue) : List PValue := l.drop (l.length - n)

/-- The trend block of `detect_patterns`: from the last 5 closes, the
upward check first (all adjacent pairs with float less-or-equal, a NaN
comparing false), then the downward check, else sideways. -/
def trendLabel (rows : List Row) : Option String :=
  let recent := lastN 5 (closesOf rows)
  if 5 ≤ recent.length then
    some (if (List.range (recent.length - 1)).all
              (fun i => PValue.le (recent.getD i PValue.nan) (recent.getD (i+1) PValue.nan))
          then "upward"
          else if (List.range (recent.length - 1)).all
              (fun i => PValue.le (recent.getD (i+1) PValue.nan) (recent.getD i PValue.nan))
          then "downward"
          else "sideways")
  else none

/-- The volume block of `detect_patterns`: present only when the
volume_ratio column exists; classifies the skipna mean of its last 5
entries against 1.5 and 0.5 (a NaN mean compares false on both and falls
to normal). -/
def volumeLabel (df : DF) : Option String :=
  if df.hasFeatures then
    let m := PValue.meanSkipna (lastN 5 (df.rows.map (·.volume_ratio)))
    some (if PValue.lt (PValue.num (3/2)) m then "high"
          else if PValue.lt m (PValue.num (1/2)) then "low"
          else "normal")
  else none

/-- The RSI block of `detect_patterns`: present only when the rsi column
exists and holds a non-NaN value; classifies the most recent non-NaN RSI
against 70 and 30 - except that the Python truthiness test
`if current_rsi:` drops the label when that value is 0. -/
def rsiLabel (df : DF) : Option String :=
  let nn := (df.rows.map (·.rsi)).filter (fun v => !v.isNan)
  if df.hasFeatures && !nn.isEmpty then
    let current := nn.getLastD PValue.nan
    if current = PValue.num 0 then none
    else some (if PValue.lt (PValue.num 70) current then "overbought"
               else if PValue.lt current (PValue.num 30) then "oversold"
               else "neutral")
  else none

/-- `StockDataProcessor.detect_patterns`: the empty mapping when the
frame has fewer than 5 rows, otherwise the three label blocks. -/
def detect_patterns (df : DF) : Patterns :=
  if df.rows.length < 5 then ⟨none, none, none⟩
  else ⟨trendLabel df.rows, volumeLabel df, rsiLabel df⟩

/-- The two pipeline stages composed, as the agent calls them. -/
def pipeline (l : List RawRow) : DF := create_ml_features (process_daily_data l)

/-- The raw records recoverable from a frame (the frame with every
derived and feature field stripped). -/
def stripDerived (df : DF) : List RawRow := df.rows.map Row.toRaw

end StockDataProcessor

open StockDataProcessor

/-! ### Claim-side vocabulary -/

/-- The dates of a frame are strictly ascending: every row's date is
strictly below its successor's. -/
def StrictAscDates (df : DF) : Prop :=
  ∀ j < df.rows.length - 1,
    (df.rows.map (·.date)).getD j 0 < (df.rows.map (·.date)).getD (j+1) 0

/-- Number of distinct dates among the raw input records. -/
def distinctDateCount (l : List RawRow) : ℕ :=
  ((l.map (·.date)).dedup).length

instance (df : DF) : Decidable (StrictAscDates df) :=
  Nat.decidableBallLT _ _

/-- A sequence of cells is non-decreasing under the float ordering (a
comparison against NaN is false, so a NaN breaks the property). -/
def NonDecreasing (l : List PValue) : Prop :=
  ∀ j < l.length - 1, PValue.le (l.getD j PValue.nan) (l.getD (j+1) PValue.nan) = true

/-- A sequence of cells is non-increasing under the float ordering. -/
def NonIncreasing (l : List PValue) : Prop :=
  ∀ j < l.length - 1, PValue.le (l.getD (j+1) PValue.nan) (l.getD j PValue.nan) = true

instance (l : List PValue) : Decidable (NonDecreasing l) :=
  Nat.decidableBallLT _ _

instance (l : List PValue) : Decidable (NonIncreasing l) :=
  Nat.decidableBallLT _ _

/-- Selector for the moving-average column of window `w`. -/
def maOf (w : ℕ) (r : Row) : PValue :=
  if w = 5 then r.ma_5 else if w = 10 then r.ma_10
  else if w = 20 then r.ma_20 else PValue.nan

/-- Sample raw record with the given date and numeric fields. -/
def sampleRaw (d : ℤ) (o c h l v : ℚ) : RawRow :=
  ⟨d, PValue.num o, PValue.num c, PValue.num h, PValue.num l, PValue.num v⟩

/-! ### Supporting lemmas -/

theorem pSum_map_num (qs : List ℚ) :
    PValue.pSum (qs.map PValue.num) = PValue.num qs.sum := by
  induction qs with
  | nil => rfl
  | cons q rest ih =>
      simp only [List.map_cons, PValue.pSum, List.foldr_cons, List.sum_cons]
      rw [show (rest.map PValue.num).foldr PValue.add (PValue.num 0) =
            PValue.pSum (rest.map PValue.num) from rfl, ih]
      rfl

theorem rollingMeanAt_eq_nan {w : ℕ} (vals : List PValue) {i : ℕ} (h : i + 1 < w) :
    PValue.rollingMeanAt w vals i = PValue.nan := by
  have hwin : (PValue.rollingWindow w vals i).length ≤ i + 1 := by
    unfold PValue.rollingWindow
    rw [List.length_drop, List.length_take]
    omega
  have hfil : ((PValue.rollingWindow w vals i).filter (fun v => !v.isNan)).length < w :=
    lt_of_le_of_lt (le_trans (List.length_filter_le _ _) hwin) h
  unfold PValue.rollingMeanAt
  simp [hfil]

theorem rollingWindow_eq_map {w : ℕ} {vals : List PValue} {i : ℕ}
    (h1 : w ≤ i + 1) (h2 : i < vals.length) :
    PValue.rollingWindow w vals i =
      (List.range w).map (fun j => vals.getD (i + 1 - w + j) PValue.nan) := by
  have htk : (vals.take (i+1)).length = i + 1 := by
    rw [List.length_take]; omega
  have hlen : (PValue.rollingWindow w vals i).length = w := by
    unfold PValue.rollingWindow
    rw [List.length_drop, htk]; omega
  apply List.ext_getElem
  · rw [hlen, List.length_map, List.length_range]
  · intro n hn1 hn2
    have hnw : n < w := by rwa [hlen] at hn1
    have hidx : i + 1 - w + n < vals.length := by omega
    have : (PValue.rollingWindow w vals i)[n] = vals[i + 1 - w + n] := by
      unfold PValue.rollingWindow
      rw [List.getElem_drop, List.getElem_take]
    rw [this]
    rw [List.getElem_map, List.getElem_range, List.getD_eq_getElem vals PValue.nan hidx]

theorem rollingMeanAt_all_num {w : ℕ} (hw : 0 < w) {vals : List PValue} {i : ℕ}
    {qs : List ℚ} (hwin : PValue.rollingWindow w vals i = qs.map PValue.num)
    (hlen : qs.length = w) :
    PValue.rollingMeanAt w vals i = PValue.num (qs.sum / w) := by
  have hfil : (qs.map PValue.num).filter (fun v => !v.isNan) = qs.map PValue.num := by
    apply List.filter_eq_self.mpr
    intro v hv
    rcases List.mem_map.mp hv with ⟨q, _, rfl⟩
    rfl
  simp only [PValue.rollingMeanAt, hwin, hfil, List.length_map, hlen, lt_self_iff_false,
    if_false]
  rw [pSum_map_num]
  have hwq : (w : ℚ) ≠ 0 := by positivity
  simp [PValue.div, hwq]

theorem create_ml_rows_getD (df : DF) (i : ℕ) (hi : i < df.rows.length) :
    (create_ml_features df).rows.getD i default = featRow df.rows i := by
  have hne : df.rows.isEmpty = false := by
    cases h : df.rows with
    | nil => rw [h] at hi; simp at hi
    | cons a as => rfl
  unfold create_ml_features
  rw [hne]
  simp only [Bool.false_eq_true, if_false]
  unfold fillFeatures
  have hlen : i < ((List.range df.rows.length).map (featRow df.rows)).length := by
    rw [List.length_map, List.length_range]; exact hi
  rw [List.getD_eq_getElem _ _ hlen, List.getElem_map, List.getElem_range]

/-! ### C1 -/

/-- C1: the claim states that `process_daily_data` returns a strictly
date-ascending table with one row per distinct input date (duplicates
removed).  The code never deduplicates: on an input of two records with
the same date, the output keeps both rows, its row count differs from
the distinct-date count, and the dates are not strictly ascending. -/
theorem c1_counterexample :
    ¬ (StrictAscDates (process_daily_data [sampleRaw 5 1 2 2 1 10, sampleRaw 5 1 3 3 1 10]) ∧
       (process_daily_data [sampleRaw 5 1 2 2 1 10, sampleRaw 5 1 3 3 1 10]).rows.length =
         distinctDateCount [sampleRaw 5 1 2 2 1 10, sampleRaw 5 1 3 3 1 10]) := by
  with_unfolding_all decide

/-- C1 (amended): for every non-empty input, the output table is sorted
non-strictly ascending by date and has exactly as many rows as the raw
input; duplicate-date rows are kept, not removed. -/
theorem c1_sorted_and_length (l : List RawRow) (h : l ≠ []) :
    List.Sorted (· ≤ ·) ((process_daily_data l).rows.map (·.date)) ∧
    (process_daily_data l).rows.length = l.length := by
  have hne : l.isEmpty = false := by
    cases l with
    | nil => exact absurd rfl h
    | cons a as => rfl
  unfold process_daily_data
  rw [hne]
  simp only [Bool.false_eq_true, if_false]
  constructor
  · rw [List.Sorted, List.pairwise_map]
    exact List.sorted_insertionSort dateLe (l.map addDerived)
  · unfold sortByDate
    rw [List.length_insertionSort, List.length_map]

/-- Witness for `c1_sorted_and_length` at a concrete two-record input. -/
theorem c1_witness :
    List.Sorted (· ≤ ·)
      ((process_daily_data [sampleRaw 7 1 2 2 1 10, sampleRaw 3 1 2 2 1 10]).rows.map (·.date)) ∧
    (process_daily_data [sampleRaw 7 1 2 2 1 10, sampleRaw 3 1 2 2 1 10]).rows.length = 2 :=
  c1_sorted_and_length [sampleRaw 7 1 2 2 1 10, sampleRaw 3 1 2 2 1 10] (by decide)

/-! ### C2 -/

/-- C2: the claim states that a zero open makes the derived percentage
fields missing and that no infinity may appear.  The code divides by the
open unguarded: at a record with open 0, close 1, high 1, low 0 both
percentage fields come out as positive infinity, which is a value and
not the missing marker. -/
theorem c2_zero_open_yields_infinity :
    ((process_daily_data [sampleRaw 0 0 1 1 0 10]).rows.map
        (fun r => (r.price_change_pct, r.daily_range_pct))) =
      [(PValue.inf, PValue.inf)] ∧
    PValue.inf ≠ PValue.nan := by
  constructor
  · with_unfolding_all decide
  · decide

/-! ### C4 -/

/-- C4: the claim states that both pipeline stages leave their argument
unchanged.  The code of `create_ml_features` assigns columns through its
argument reference, so after the call the (non-empty, feature-free)
argument frame has gained columns and is no longer equal to its value
before the call. -/
theorem c4_counterexample :
    (create_ml_features_call ⟨[(default : Row)], false⟩).1 ≠ ⟨[(default : Row)], false⟩ := by
  decide

/-- C4 (amended): `process_daily_data` indeed never mutates its argument
list; `create_ml_features` however works in place: the argument observed
after the call equals the returned frame (one shared object), and for a
non-empty frame without feature columns that value differs from the
argument before the call. -/
theorem c4_mutation (l : List RawRow) (df : DF)
    (hne : df.rows ≠ []) (hf : df.hasFeatures = false) :
    (process_daily_data_call l).1 = l ∧
    (create_ml_features_call df).1 = (create_ml_features_call df).2 ∧
    (create_ml_features_call df).1 ≠ df := by
  refine ⟨rfl, rfl, ?_⟩
  have hemp : df.rows.isEmpty = false := by
    cases h : df.rows with
    | nil => exact absurd h hne
    | cons a as => rfl
  unfold create_ml_features_call create_ml_features
  rw [hemp]
  simp only [Bool.false_eq_true, if_false]
  intro hcontra
  have hflag := congrArg DF.hasFeatures hcontra
  rw [hf] at hflag
  exact Bool.noConfusion hflag

/-- Witness for `c4_mutation` at concrete inputs. -/
theorem c4_witness :
    (process_daily_data_call [sampleRaw 0 1 2 2 1 10]).1 = [sampleRaw 0 1 2 2 1 10] ∧
    (create_ml_features_call ⟨[(default : Row)], false⟩).1 =
      (create_ml_features_call ⟨[(default : Row)], false⟩).2 ∧
    (create_ml_features_call ⟨[(default : Row)], false⟩).1 ≠ ⟨[(default : Row)], false⟩ :=
  c4_mutation [sampleRaw 0 1 2 2 1 10] ⟨[(default : Row)], false⟩ (by decide) rfl

/-! ### C6 -/

/-- Sample row with only a date and a close value (the other cells
missing), for feeding the feature stage directly. -/
def sampleCloseRow (d : ℤ) (c : ℚ) : Row :=
  { (default : Row) with date := d, close := PValue.num c }

/-- C6: for each window w in {5, 10, 20}, the moving-average column at a
row index with a full numeric trailing window equals the arithmetic mean
of the trailing w closes inclusive of the current row, and is missing at
every index below w - 1. -/
theorem c6_moving_averages (df : DF) (w i : ℕ)
    (hw : w = 5 ∨ w = 10 ∨ w = 20) (hi : i < df.rows.length) :
    (i + 1 < w → maOf w ((create_ml_features df).rows.getD i default) = PValue.nan) ∧
    (∀ q : ℕ → ℚ, w ≤ i + 1 →
      (∀ j, j < w → (closesOf df.rows).getD (i + 1 - w + j) PValue.nan = PValue.num (q j)) →
      maOf w ((create_ml_features df).rows.getD i default) =
        PValue.num (((List.range w).map q).sum / w)) := by
  have hget := create_ml_rows_getD df i hi
  have hclen : i < (closesOf df.rows).length := by
    rw [closesOf, List.length_map]; exact hi
  have hma : maOf w (featRow df.rows i) = PValue.rollingMeanAt w (closesOf df.rows) i := by
    rcases hw with h | h | h <;> subst h <;> rfl
  constructor
  · intro hlt
    rw [hget, hma]
    exact rollingMeanAt_eq_nan _ hlt
  · intro q hwle hq
    rw [hget, hma]
    have hwin : PValue.rollingWindow w (closesOf df.rows) i =
        ((List.range w).map q).map PValue.num := by
      rw [rollingWindow_eq_map hwle hclen, List.map_map]
      apply List.map_congr_left
      intro j hj
      exact hq j (List.mem_range.mp hj)
    exact rollingMeanAt_all_num (by rcases hw with h|h|h <;> omega) hwin
      (by rw [List.length_map, List.length_range])

/-- Witness for `c6_moving_averages`: five rows with constant close 2,
window 5 at the last row. -/
theorem c6_witness :
    maOf 5 ((create_ml_features ⟨[sampleCloseRow 0 2, sampleCloseRow 1 2, sampleCloseRow 2 2,
        sampleCloseRow 3 2, sampleCloseRow 4 2], false⟩).rows.getD 4 default) =
      PValue.num (((List.range 5).map (fun _ => (2 : ℚ))).sum / 5) :=
  (c6_moving_averages ⟨[sampleCloseRow 0 2, sampleCloseRow 1 2, sampleCloseRow 2 2,
      sampleCloseRow 3 2, sampleCloseRow 4 2], false⟩ 5 4 (Or.inl rfl) (by decide)).2
    (fun _ => (2 : ℚ)) (by omega)
    (fun j hj => by interval_cases j <;> with_unfolding_all rfl)

/-! ### C3 -/

/-- C3: the RSI column is missing before index 13; at an index whose
trailing 14-row average loss is zero it equals exactly 100 when the
average gain is positive (the infinite RS saturates through
100 - 100/(1 + inf) = 100) and is missing when the average gain is also
zero. -/
theorem c3_rsi_saturation (df : DF) (i : ℕ) (hi : i < df.rows.length) :
    (i < 13 → ((create_ml_features df).rows.getD i default).rsi = PValue.nan) ∧
    (∀ g : ℚ, 13 ≤ i → avgLossAt (closesOf df.rows) i = PValue.num 0 →
      avgGainAt (closesOf df.rows) i = PValue.num g → 0 < g →
      ((create_ml_features df).rows.getD i default).rsi = PValue.num 100) ∧
    (13 ≤ i → avgLossAt (closesOf df.rows) i = PValue.num 0 →
      avgGainAt (closesOf df.rows) i = PValue.num 0 →
      ((create_ml_features df).rows.getD i default).rsi = PValue.nan) := by
  have hget := create_ml_rows_getD df i hi
  have hrsi : ((create_ml_features df).rows.getD i default).rsi =
      rsiAt (closesOf df.rows) i := by
    rw [hget]; rfl
  refine ⟨?_, ?_, ?_⟩
  · intro h13
    have hg : avgGainAt (closesOf df.rows) i = PValue.nan := by
      unfold avgGainAt
      exact rollingMeanAt_eq_nan _ (by omega)
    have hl : avgLossAt (closesOf df.rows) i = PValue.nan := by
      unfold avgLossAt
      exact rollingMeanAt_eq_nan _ (by omega)
    rw [hrsi]
    simp only [rsiAt, hg, hl]
    rfl
  · intro g _ hloss hgain hgpos
    rw [hrsi]
    have hgne : g ≠ 0 := ne_of_gt hgpos
    simp only [rsiAt, hloss, hgain]
    norm_num [PValue.div, PValue.add, PValue.sub, PValue.neg, hgne, hgpos]
  · intro _ hloss hgain
    rw [hrsi]
    simp only [rsiAt, hloss, hgain]
    norm_num [PValue.div, PValue.add, PValue.sub, PValue.neg]

/-- Fourteen rows with closes 1 up to 14 (every day a gain of 1). -/
def sampleGainRows : List Row :=
  (List.range 14).map (fun k => sampleCloseRow k ((k : ℚ) + 1))

/-- Witness for `c3_rsi_saturation`: on fourteen strictly rising closes
the average loss is 0 and the average gain 13/14, so RSI is exactly 100. -/
theorem c3_witness :
    ((create_ml_features ⟨sampleGainRows, false⟩).rows.getD 13 default).rsi =
      PValue.num 100 :=
  (c3_rsi_saturation ⟨sampleGainRows, false⟩ 13 (by with_unfolding_all decide)).2.1
    (13/14) (by omega) (by with_unfolding_all decide) (by with_unfolding_all decide)
    (by norm_num)

/-! ### C5 -/

theorem nonDecreasing_iff_all (l : List PValue) :
    ((List.range (l.length - 1)).all
      (fun i => PValue.le (l.getD i PValue.nan) (l.getD (i+1) PValue.nan)) = true) ↔
    NonDecreasing l := by
  rw [List.all_eq_true]
  unfold NonDecreasing
  constructor
  · intro h j hj
    exact h j (List.mem_range.mpr hj)
  · intro h x hx
    exact h x (List.mem_range.mp hx)

theorem nonIncreasing_iff_all (l : List PValue) :
    ((List.range (l.length - 1)).all
      (fun i => PValue.le (l.getD (i+1) PValue.nan) (l.getD i PValue.nan)) = true) ↔
    NonIncreasing l := by
  rw [List.all_eq_true]
  unfold NonIncreasing
  constructor
  · intro h j hj
    exact h j (List.mem_range.mpr hj)
  · intro h x hx
    exact h x (List.mem_range.mp hx)

/-- C5: on a table of at least 5 rows the trend label is upward exactly
when the last 5 closes are pairwise non-decreasing under the float
ordering (so an all-equal tail is upward, the upward check running
first), downward exactly when they are non-increasing but not
non-decreasing, and sideways exactly in the remaining cases. -/
theorem c5_trend (df : DF) (h5 : 5 ≤ df.rows.length)
    (recent : List PValue) (hrec : recent = lastN 5 (closesOf df.rows)) :
    ((detect_patterns df).trend = some "upward" ↔ NonDecreasing recent) ∧
    ((detect_patterns df).trend = some "downward" ↔
      NonIncreasing recent ∧ ¬ NonDecreasing recent) ∧
    ((detect_patterns df).trend = some "sideways" ↔
      ¬ NonDecreasing recent ∧ ¬ NonIncreasing recent) := by
  have hnlt : ¬ (df.rows.length < 5) := by omega
  have hlen : recent.length = 5 := by
    rw [hrec]
    unfold lastN closesOf
    rw [List.length_drop, List.length_map]
    omega
  have htr : (detect_patterns df).trend = trendLabel df.rows := by
    unfold detect_patterns
    rw [if_neg hnlt]
  have hlabel : trendLabel df.rows =
      some (if (List.range (recent.length - 1)).all
                (fun i => PValue.le (recent.getD i PValue.nan) (recent.getD (i+1) PValue.nan))
            then "upward"
            else if (List.range (recent.length - 1)).all
                (fun i => PValue.le (recent.getD (i+1) PValue.nan) (recent.getD i PValue.nan))
            then "downward"
            else "sideways") := by
    unfold trendLabel
    rw [← hrec, if_pos (by omega)]
  have hndec := nonDecreasing_iff_all recent
  have hninc := nonIncreasing_iff_all recent
  rw [htr, hlabel]
  cases hU : (List.range (recent.length - 1)).all
      (fun i => PValue.le (recent.getD i PValue.nan) (recent.getD (i+1) PValue.nan)) with
  | true =>
      rw [if_pos rfl]
      have hnd : NonDecreasing recent := hndec.mp hU
      exact ⟨iff_of_true rfl hnd,
        iff_of_false (by decide) (fun h => h.2 hnd),
        iff_of_false (by decide) (fun h => h.1 hnd)⟩
  | false =>
      rw [if_neg (by decide)]
      have hnnd : ¬ NonDecreasing recent := fun h =>
        Bool.noConfusion (hU.symm.trans (hndec.mpr h))
      cases hD : (List.range (recent.length - 1)).all
          (fun i => PValue.le (recent.getD (i+1) PValue.nan) (recent.getD i PValue.nan)) with
      | true =>
          rw [if_pos rfl]
          have hni : NonIncreasing recent := hninc.mp hD
          exact ⟨iff_of_false (by decide) hnnd,
            iff_of_true rfl ⟨hni, hnnd⟩,
            iff_of_false (by decide) (fun h => h.2 hni)⟩
      | false =>
          rw [if_neg (by decide)]
          have hnni : ¬ NonIncreasing recent := fun h =>
            Bool.noConfusion (hD.symm.trans (hninc.mpr h))
          exact ⟨iff_of_false (by decide) hnnd,
            iff_of_false (by decide) (fun h => hnni h.1),
            iff_of_true rfl ⟨hnnd, hnni⟩⟩

/-- Witness for `c5_trend`: five strictly rising closes give the upward
label. -/
theorem c5_witness :
    (detect_patterns ⟨[sampleCloseRow 0 1, sampleCloseRow 1 2, sampleCloseRow 2 3,
        sampleCloseRow 3 4, sampleCloseRow 4 5], false⟩).trend = some "upward" :=
  ((c5_trend ⟨[sampleCloseRow 0 1, sampleCloseRow 1 2, sampleCloseRow 2 3,
      sampleCloseRow 3 4, sampleCloseRow 4 5], false⟩ (by decide) _ rfl).1).mpr
    (by with_unfolding_all decide)

/-! ### C10 -/

/-- C10: when every one of the last 5 volume_ratio entries is missing,
the skipna mean is NaN, both threshold comparisons are false, and the
volume label is still emitted, as normal. -/
theorem c10_all_missing_ratio_normal (df : DF) (h5 : 5 ≤ df.rows.length)
    (hf : df.hasFeatures = true)
    (hnan : ∀ v ∈ lastN 5 (df.rows.map (·.volume_ratio)), v = PValue.nan) :
    (detect_patterns df).volume_activity = some "normal" := by
  have hnlt : ¬ (df.rows.length < 5) := by omega
  have hva : (detect_patterns df).volume_activity = volumeLabel df := by
    unfold detect_patterns
    rw [if_neg hnlt]
  have hfil : (lastN 5 (df.rows.map (·.volume_ratio))).filter (fun v => !v.isNan) = [] :=
    List.filter_eq_nil_iff.mpr (fun a ha => by rw [hnan a ha]; decide)
  have hm : PValue.meanSkipna (lastN 5 (df.rows.map (·.volume_ratio))) = PValue.nan := by
    unfold PValue.meanSkipna
    rw [hfil]
    rfl
  rw [hva]
  simp only [volumeLabel, hf, hm]
  decide

/-- Witness for `c10_all_missing_ratio_normal`: five feature-less rows,
every volume_ratio missing. -/
theorem c10_witness :
    (detect_patterns ⟨List.replicate 5 (default : Row), true⟩).volume_activity =
      some "normal" :=
  c10_all_missing_ratio_normal ⟨List.replicate 5 (default : Row), true⟩
    (by decide) rfl (by decide)

/-! ### C8 -/

/-- Five rows whose rsi column is missing except for the last row, where
it is exactly 0 (a value the pipeline produces after 14 all-loss days). -/
def c8df : DF :=
  ⟨[(default : Row), default, default, default,
    { (default : Row) with rsi := PValue.num 0 }], true⟩

/-- C8: the claim states the rsi label is omitted only when no non-NaN
RSI exists.  On a table whose most recent non-NaN RSI is 0, a non-NaN RSI
exists (the filtered column is the single cell 0), the claim demands the
oversold label, yet the code's Python truthiness test `if current_rsi:`
treats the float 0.0 as false and emits no label. -/
theorem c8_rsi_zero_omitted :
    (detect_patterns c8df).rsi_signal = none ∧
    ((c8df.rows.map (·.rsi)).filter (fun v => !v.isNan)).getLastD PValue.nan =
      PValue.num 0 ∧
    ((c8df.rows.map (·.rsi)).filter (fun v => !v.isNan)) ≠ [] := by
  refine ⟨?_, ?_, ?_⟩ <;> with_unfolding_all decide

/-! ### C7 -/

/-- C7: the claim states total_return is missing when the first open is
0.  The code divides unguarded: at a single-row table with open 0 and
close 1 the total_return is positive infinity, a value and not the
missing marker. -/
theorem c7_counterexample :
    (calculate_statistics (process_daily_data [sampleRaw 0 0 1 1 0 10])).map
        Stats.total_return = some PValue.inf ∧
    PValue.inf ≠ PValue.nan := by
  constructor
  · with_unfolding_all decide
  · decide

/-- C7 (amended): on a non-empty table with first open a and last close
b, total_return equals (b - a) / a x 100 whenever a is non-zero (in
particular on a single-row table); when a is 0 the value is positive or
negative infinity for non-zero b and NaN only for b = 0, never an
ordinary missing field. -/
theorem c7_total_return (df : DF) (r0 : Row) (rest : List Row)
    (hrows : df.rows = r0 :: rest) (a b : ℚ) (ha : r0.open_ = PValue.num a)
    (hb : ((r0 :: rest).map (·.close)).getLastD PValue.nan = PValue.num b) :
    (a ≠ 0 → (calculate_statistics df).map Stats.total_return =
      some (PValue.num ((b - a) / a * 100))) ∧
    (a = 0 → 0 < b → (calculate_statistics df).map Stats.total_return = some PValue.inf) ∧
    (a = 0 → b < 0 → (calculate_statistics df).map Stats.total_return = some PValue.ninf) ∧
    (a = 0 → b = 0 → (calculate_statistics df).map Stats.total_return = some PValue.nan) := by
  obtain ⟨rows, flag⟩ := df
  have h2 : rows = r0 :: rest := hrows
  subst h2
  have hcalc : (calculate_statistics ⟨r0 :: rest, flag⟩).map Stats.total_return =
      some (PValue.mul (PValue.div (PValue.sub (PValue.num b) (PValue.num a))
        (PValue.num a)) (PValue.num 100)) := by
    simp only [calculate_statistics, Option.map_some']
    rw [if_pos (by simp), ha, hb]
  refine ⟨?_, ?_, ?_, ?_⟩
  · intro hane
    rw [hcalc]
    norm_num [PValue.sub, PValue.add, PValue.neg, PValue.div, PValue.mul, hane]
    ring
  · intro ha0 hbpos
    subst ha0
    rw [hcalc]
    have hbne : b ≠ 0 := ne_of_gt hbpos
    norm_num [PValue.sub, PValue.add, PValue.neg, PValue.div, PValue.mul, hbne, hbpos]
  · intro ha0 hbneg
    subst ha0
    rw [hcalc]
    have hbne : b ≠ 0 := ne_of_lt hbneg
    have hnlt : ¬ (0 < b) := by linarith
    norm_num [PValue.sub, PValue.add, PValue.neg, PValue.div, PValue.mul, hbne, hnlt]
  · intro ha0 hb0
    subst ha0
    subst hb0
    rw [hcalc]
    norm_num [PValue.sub, PValue.add, PValue.neg, PValue.div, PValue.mul]

/-- Witness for `c7_total_return`: a single row with open 2 and close 3
gives total_return 50. -/
theorem c7_witness :
    (calculate_statistics (process_daily_data [sampleRaw 0 2 3 3 2 10])).map
      Stats.total_return = some (PValue.num 50) := by
  have h := (c7_total_return (process_daily_data [sampleRaw 0 2 3 3 2 10])
      (addDerived (sampleRaw 0 2 3 3 2 10)) []
      (by with_unfolding_all rfl) 2 3 (by with_unfolding_all rfl)
      (by with_unfolding_all rfl)).1 (by norm_num)
  rw [h]
  norm_num

/-! ### C9 -/

theorem toRaw_addDerived (a : RawRow) : (addDerived a).toRaw = a := rfl

theorem length_sortByDate (l : List Row) : (sortByDate l).length = l.length :=
  List.length_insertionSort dateLe l

theorem mem_sortByDate {l : List Row} {x : Row} : x ∈ sortByDate l ↔ x ∈ l :=
  List.mem_insertionSort dateLe

theorem sortByDate_sorted (l : List Row) : List.Sorted dateLe (sortByDate l) :=
  List.sorted_insertionSort dateLe l

theorem length_fillFeatures (rows : List Row) :
    (fillFeatures rows).length = rows.length := by
  unfold fillFeatures
  rw [List.length_map, List.length_range]

theorem fillFeatures_map_toRaw (rows : List Row) :
    (fillFeatures rows).map Row.toRaw = rows.map Row.toRaw := by
  unfold fillFeatures
  apply List.ext_getElem
  · rw [List.length_map, List.length_map, List.length_map, List.length_range]
  · intro n h1 h2
    rw [List.getElem_map, List.getElem_map, List.getElem_map, List.getElem_range]
    have hn : n < rows.length := by
      rw [List.length_map, List.length_map, List.length_range] at h1
      exact h1
    show (featRow rows n).toRaw = rows[n].toRaw
    have : rows.getD n default = rows[n] := List.getD_eq_getElem rows default hn
    show (rows.getD n default).toRaw = rows[n].toRaw
    rw [this]

/-- The contract of `df.sort_values(date)`: the output is a date-sorted
permutation of the input.  The default pandas kind of sort (quicksort)
is not stable, so which of the sorted permutations is returned is
unspecified when dates repeat; any of them is a legitimate outcome. -/
def IsSortValuesOutcome (input output : List Row) : Prop :=
  List.Perm input output ∧ List.Sorted dateLe output

/-- One contract-abiding run of the two pipeline stages on a raw input:
on a non-empty input the sort step may return any date-sorted
permutation of the derived rows, and the feature stage is computed on
that order.  The functional `pipeline` realises one such outcome (the
stable one). -/
def PipelineOutcome (l : List RawRow) (df : DF) : Prop :=
  (l = [] ∧ df = ⟨[], false⟩) ∨
  (l ≠ [] ∧ ∃ s, IsSortValuesOutcome (l.map addDerived) s ∧ df = ⟨fillFeatures s, true⟩)

theorem pipeline_eq_fill (l : List RawRow) (h : l ≠ []) :
    pipeline l = ⟨fillFeatures (sortByDate (l.map addDerived)), true⟩ := by
  cases l with
  | nil => exact absurd rfl h
  | cons x xs =>
    have hslen : (sortByDate ((x :: xs).map addDerived)).length = xs.length + 1 := by
      rw [length_sortByDate, List.length_map, List.length_cons]
    have hsemp : (sortByDate ((x :: xs).map addDerived)).isEmpty = false := by
      cases hs : sortByDate ((x :: xs).map addDerived) with
      | nil => rw [hs] at hslen; exact absurd hslen (by simp)
      | cons a as => rfl
    show create_ml_features (process_daily_data (x :: xs)) = _
    rw [show process_daily_data (x :: xs) =
        ⟨sortByDate ((x :: xs).map addDerived), false⟩ from rfl]
    simp only [create_ml_features, hsemp, Bool.false_eq_true, if_false]

theorem strip_pipeline_addDerived (l : List RawRow) (h : l ≠ []) :
    (stripDerived (pipeline l)).map addDerived = sortByDate (l.map addDerived) := by
  rw [pipeline_eq_fill l h]
  show ((fillFeatures (sortByDate (l.map addDerived))).map Row.toRaw).map addDerived = _
  rw [fillFeatures_map_toRaw, List.map_map]
  have h1 : ∀ r ∈ sortByDate (l.map addDerived), (addDerived ∘ Row.toRaw) r = id r := by
    intro r hr
    rcases List.mem_map.mp (mem_sortByDate.mp hr) with ⟨aa, _, rfl⟩
    show addDerived (addDerived aa).toRaw = addDerived aa
    rw [toRaw_addDerived]
  rw [List.map_congr_left h1, List.map_id]

/-- Two date-sorted lists that are permutations of each other and whose
dates are pairwise distinct are equal: with no ties the sort contract
determines the output uniquely. -/
theorem eq_of_perm_of_sorted_of_nodup_dates {l1 l2 : List Row}
    (hp : List.Perm l1 l2) (h1 : List.Sorted dateLe l1) (h2 : List.Sorted dateLe l2)
    (hnd : (l1.map (·.date)).Nodup) : l1 = l2 := by
  induction l1 generalizing l2 with
  | nil => exact (hp.symm.eq_nil).symm
  | cons x t1 ih =>
    cases l2 with
    | nil => exact absurd hp.eq_nil (List.cons_ne_nil x t1)
    | cons y t2 =>
      have hxy : x = y := by
        have hx2 : x ∈ y :: t2 := hp.mem_iff.mp (List.mem_cons_self x t1)
        rcases List.mem_cons.mp hx2 with h | hxt2
        · exact h
        · have hy1 : y ∈ x :: t1 := hp.mem_iff.mpr (List.mem_cons_self y t2)
          rcases List.mem_cons.mp hy1 with h | hyt1
          · exact h.symm
          · exfalso
            have hxy1 : x.date ≤ y.date := List.rel_of_sorted_cons h1 y hyt1
            have hyx : y.date ≤ x.date := List.rel_of_sorted_cons h2 x hxt2
            have heq : y.date = x.date := le_antisymm hyx hxy1
            have hmem : x.date ∈ t1.map (·.date) :=
              heq ▸ List.mem_map_of_mem (·.date) hyt1
            rw [List.map_cons] at hnd
            exact (List.nodup_cons.mp hnd).1 hmem
      subst hxy
      have hperm2 : List.Perm t1 t2 := hp.cons_inv
      have hnd2 : (t1.map (·.date)).Nodup := by
        rw [List.map_cons] at hnd
        exact (List.nodup_cons.mp hnd).2
      rw [ih hperm2 h1.of_cons h2.of_cons hnd2]

/-- Two records sharing date 0 with different closes: a duplicate-date
input on which the sort contract does not pin down the row order. -/
def c9DupInput : List RawRow := [sampleRaw 0 1 2 2 1 10, sampleRaw 0 1 3 3 1 10]

/-- The re-run sort outcome in which the two equal-date rows come out
swapped, as an unstable sort may do. -/
def c9AltSorted : List Row :=
  [addDerived (sampleRaw 0 1 3 3 1 10), addDerived (sampleRaw 0 1 2 2 1 10)]

/-- C9: the claim asserts that re-running the pipeline on its own output
stripped of derived fields reproduces every pipeline table exactly.  The
sort inside the re-run is pandas' default quicksort, unstable on equal
dates: on the duplicate-date table produced from `c9DupInput`, the
contract of the sort admits the swapped order `c9AltSorted` for the
re-run, and the table built on it differs from the original pipeline
output, so exact reproduction is not guaranteed by the code. -/
theorem c9_counterexample :
    PipelineOutcome (stripDerived (pipeline c9DupInput))
      ⟨fillFeatures c9AltSorted, true⟩ ∧
    (⟨fillFeatures c9AltSorted, true⟩ : DF) ≠ pipeline c9DupInput := by
  constructor
  · refine Or.inr ⟨by with_unfolding_all decide, c9AltSorted, ⟨?_, ?_⟩, rfl⟩
    · have hmap : (stripDerived (pipeline c9DupInput)).map addDerived =
          [addDerived (sampleRaw 0 1 2 2 1 10), addDerived (sampleRaw 0 1 3 3 1 10)] := by
        with_unfolding_all rfl
      rw [hmap]
      exact List.Perm.swap _ _ _
    · refine List.pairwise_cons.mpr ⟨?_, List.pairwise_singleton _ _⟩
      intro b hb
      rw [List.mem_singleton.mp hb]
      show (addDerived (sampleRaw 0 1 3 3 1 10)).date ≤
        (addDerived (sampleRaw 0 1 2 2 1 10)).date
      decide
  · with_unfolding_all decide

/-- C9 (amended): for every input whose dates are pairwise distinct, any
contract-abiding run of the pipeline returns exactly the functional
pipeline output (with no ties, the sorted permutation is unique, so the
result does not depend on the sort's tie behaviour), and re-running the
pipeline on its own output stripped of the derived fields reproduces
the table exactly, derived and feature fields included.  On
duplicate-date inputs the tie order of the unstable sort is unspecified
and exact reproduction is not guaranteed (see the counterexample). -/
theorem c9_distinct_dates_idempotent (l : List RawRow)
    (hnd : (l.map (·.date)).Nodup) :
    pipeline (stripDerived (pipeline l)) = pipeline l ∧
    ∀ df, PipelineOutcome l df → df = pipeline l := by
  have hmdates : ((l.map addDerived).map (·.date)).Nodup := by
    rw [List.map_map]
    have hfun : List.map ((·.date) ∘ addDerived) l = List.map (·.date) l :=
      List.map_congr_left (fun a _ => rfl)
    rw [hfun]
    exact hnd
  have huniq : ∀ df, PipelineOutcome l df → df = pipeline l := by
    intro df hdf
    rcases hdf with ⟨hl, hdf⟩ | ⟨hlne, s, ⟨hperm, hsort⟩, hdf⟩
    · subst hl
      rw [hdf]
      rfl
    · have hs : s = sortByDate (l.map addDerived) := by
        apply eq_of_perm_of_sorted_of_nodup_dates
        · exact hperm.symm.trans (List.perm_insertionSort dateLe (l.map addDerived)).symm
        · exact hsort
        · exact sortByDate_sorted _
        · exact (hperm.map (·.date)).nodup_iff.mp hmdates
      rw [hdf, hs, pipeline_eq_fill l hlne]
  have hround : pipeline (stripDerived (pipeline l)) = pipeline l := by
    by_cases hlne : l = []
    · subst hlne
      rfl
    · have hstriplen : (stripDerived (pipeline l)).length = l.length := by
        rw [pipeline_eq_fill l hlne]
        show ((fillFeatures (sortByDate (l.map addDerived))).map Row.toRaw).length = _
        rw [List.length_map, length_fillFeatures, length_sortByDate, List.length_map]
      have hstrip_ne : stripDerived (pipeline l) ≠ [] := by
        intro hnil
        rw [hnil] at hstriplen
        exact hlne (List.length_eq_zero.mp hstriplen.symm)
      apply huniq
      refine Or.inr ⟨hlne, sortByDate ((stripDerived (pipeline l)).map addDerived),
        ⟨?_, sortByDate_sorted _⟩, pipeline_eq_fill _ hstrip_ne⟩
      rw [strip_pipeline_addDerived l hlne]
      exact ((List.perm_insertionSort dateLe _).trans
        (List.perm_insertionSort dateLe _)).symm
  exact ⟨hround, huniq⟩

/-- Witness for `c9_distinct_dates_idempotent` at a two-record input
with distinct dates. -/
theorem c9_witness :
    pipeline (stripDerived (pipeline [sampleRaw 0 1 2 2 1 10, sampleRaw 1 1 3 3 1 10])) =
      pipeline [sampleRaw 0 1 2 2 1 10, sampleRaw 1 1 3 3 1 10] :=
  (c9_distinct_dates_idempotent [sampleRaw 0 1 2 2 1 10, sampleRaw 1 1 3 3 1 10]
    (by with_unfolding_all decide)).1
